import Mathlib

/-
  Verification of the statechart structural core (sismic `model.py` / `testing.py`).

  The Python source is shallowly embedded:
  * `dict`s keyed by state names become ordered association lists (`List (String × _)`)
    with first-match lookup and in-place update, mirroring insertion-ordered dicts;
  * `None`-able strings become `Option String`; Python truthiness of such a value
    (`if parent:` ...) is `pyTruthyOptStr`, false exactly on `None` and `""`;
  * code that can raise returns `Except PyErr _`; methods that mutate `self` before
    raising return `StateChart × Option PyErr` so the partially mutated chart is kept;
  * the unbounded `while` loop of `ancestors_for` is run on fuel `len(parent) + 1`;
    exhausted fuel (only reachable through a parent cycle, on which the Python loop
    never terminates) is reported as `PyErr.nonTermination`;
  * `MacroStep.time` (a Python float used only with `>`, `-` on literals such as 1.5)
    is embedded as `Rat`.
-/

/-- A contract: three ordered lists of opaque strings (`ContractMixin`). -/
structure Contract where
  preconditions : List String
  postconditions : List String
  invariants : List String
  deriving DecidableEq

/-- A transition between two states (`Transition` in `model.py`): source name,
optional target, optional event name, optional guard code, optional action code,
plus the contract every `ContractMixin` carries. -/
structure Transition where
  contract : Contract
  from_state : String
  to_state : Option String
  event : Option String
  guard : Option String
  action : Option String
  deriving DecidableEq

/-- Tags of `InvalidStatechartError`s: the duplicate-name build error of
`register_state` and the six validation rules of `validate`, each carrying
the offending transition or state name the message would show. -/
inductive VTag where
  | duplicate (name : String)
  | ruleC1 (t : Transition)
  | ruleC5 (t : Transition)
  | ruleC2 (state : String)
  | ruleC4 (state : String)
  | ruleC3 (state : String)
  | ruleC6 (state : String)
  deriving DecidableEq

/-- Errors raised by the embedded code (see the header comment). -/
inductive PyErr where
  | keyError
  | attributeError
  | typeError
  | nonTermination
  | invalidStatechart (tag : VTag)
  deriving DecidableEq

instance {ε α : Type} [DecidableEq ε] [DecidableEq α] : DecidableEq (Except ε α) := fun x y =>
  match x, y with
  | .ok a, .ok b =>
    if h : a = b then .isTrue (by rw [h]) else .isFalse (fun hh => h (Except.ok.inj hh))
  | .error a, .error b =>
    if h : a = b then .isTrue (by rw [h]) else .isFalse (fun hh => h (Except.error.inj hh))
  | .ok _, .error _ => .isFalse (fun hh => Except.noConfusion hh)
  | .error _, .ok _ => .isFalse (fun hh => Except.noConfusion hh)

/-- Python truthiness of an optional string: `None` and `''` are falsy. -/
def pyTruthyOptStr : Option String → Bool
  | none => false
  | some s => !(s == "")

/-- Values stored in an `Event`'s keyword-argument payload: strings, `None`,
or a nested event (the `consumed` story event carries the consumed `Event`;
since `Event.__eq__` compares by name only, an event value is embedded by its
name). -/
inductive EventValue where
  | strV (s : String)
  | noneV
  | eventV (name : String)
  deriving DecidableEq

/-- An event (`Event` in `model.py`): a name and a keyword-argument payload. -/
structure Event where
  name : String
  data : List (String × EventValue)
  deriving DecidableEq

/-- The five closed state variants of `model.py` (`BasicState`, `CompoundState`,
`OrthogonalState`, `HistoryState`, `FinalState`), with the fields their mixins
provide.  Only `compound` and `orthogonal` have a `children` attribute
(`CompositeStateMixin`); only `basic`, `compound` and `orthogonal` have a
`transitions` attribute (`TransitionStateMixin`). -/
inductive State where
  | basic (contract : Contract) (name : String) (transitions : List Transition)
      (on_entry : Option String) (on_exit : Option String)
  | compound (contract : Contract) (name : String) (transitions : List Transition)
      (on_entry : Option String) (on_exit : Option String)
      (children : List String) (initial : Option String)
  | orthogonal (contract : Contract) (name : String) (transitions : List Transition)
      (on_entry : Option String) (on_exit : Option String) (children : List String)
  | history (contract : Contract) (name : String) (initial : Option String) (deep : Bool)
  | final (contract : Contract) (name : String)
      (on_entry : Option String) (on_exit : Option String)
  deriving DecidableEq

/-- Name of a state (`StateMixin.name`). -/
def State.name : State → String
  | .basic _ n _ _ _ => n
  | .compound _ n _ _ _ _ _ => n
  | .orthogonal _ n _ _ _ _ => n
  | .history _ n _ _ => n
  | .final _ n _ _ => n

/-- The `children` attribute when the state has one (`CompositeStateMixin`);
`none` models the `AttributeError` a `.children` access would raise. -/
def State.childrenAttr : State → Option (List String)
  | .compound _ _ _ _ _ ch _ => some ch
  | .orthogonal _ _ _ _ _ ch => some ch
  | _ => none

/-- The `transitions` attribute when the state has one (`TransitionStateMixin`);
`none` models the `AttributeError` a `.transitions` access would raise. -/
def State.transitionsAttr : State → Option (List Transition)
  | .basic _ _ ts _ _ => some ts
  | .compound _ _ ts _ _ _ _ => some ts
  | .orthogonal _ _ ts _ _ _ => some ts
  | _ => none

/-- In-place `state.children.append(name)`; identity on states without the
attribute (only called after a successful `childrenAttr` access). -/
def State.appendChild : State → String → State
  | .compound c n ts e x ch i, k => .compound c n ts e x (ch ++ [k]) i
  | .orthogonal c n ts e x ch, k => .orthogonal c n ts e x (ch ++ [k])
  | s, _ => s

/-- In-place `state.transitions.append(t)`; identity on states without the
attribute (only called after a successful `transitionsAttr` access). -/
def State.appendTransition : State → Transition → State
  | .basic c n ts e x, t => .basic c n (ts ++ [t]) e x
  | .compound c n ts e x ch i, t => .compound c n (ts ++ [t]) e x ch i
  | .orthogonal c n ts e x ch, t => .orthogonal c n (ts ++ [t]) e x ch
  | s, _ => s

/-- Whether the state is a `HistoryState`. -/
def State.isHistory : State → Bool
  | .history _ _ _ _ => true
  | _ => false

/-- Whether the state is a `CompositeStateMixin` (`CompoundState` or `OrthogonalState`). -/
def State.isComposite : State → Bool
  | .compound _ _ _ _ _ _ _ => true
  | .orthogonal _ _ _ _ _ _ => true
  | _ => false

/-- Whether the state is a `CompoundState` whose `initial` is falsy
(the condition of validation rule C6: `isinstance(..., CompoundState)`
followed by `if not target_state.initial`). -/
def State.isCompoundNoInitial : State → Bool
  | .compound _ _ _ _ _ _ init => !(pyTruthyOptStr init)
  | _ => false

/-- First-match lookup in an association list: `d.get(key)` / `d[key]`. -/
def dictGet? {α : Type} : List (String × α) → String → Option α
  | [], _ => none
  | kv :: rest, key => if key = kv.1 then some kv.2 else dictGet? rest key

/-- Keys of an association list, in insertion order: `d.keys()`. -/
def dictKeys {α : Type} (d : List (String × α)) : List String := d.map Prod.fst

/-- Python dict assignment `d[key] = v`: update in place if the key exists,
otherwise append a new entry. -/
def dictSet {α : Type} (d : List (String × α)) (key : String) (v : α) : List (String × α) :=
  if (dictKeys d).contains key then
    d.map (fun kv => if kv.1 = key then (key, v) else kv)
  else d ++ [(key, v)]

/-- Python structure for a statechart (`StateChart` in `model.py`):
`states` embeds `self._states` (name → state object), `parent` embeds
`self._parent` (name → parent name or `None`), `transitions` the global
transition list, and `root` the name of `self._root`. -/
structure StateChart where
  name : String
  description : Option String
  bootstrap : Option String
  states : List (String × State)
  parent : List (String × Option String)
  transitions : List Transition
  root : String
  deriving DecidableEq

/-- The `StateChart.__init__` constructor: registers the root with no parent. -/
def StateChart.init (name : String) (root : State)
    (description : Option String) (bootstrap : Option String) : StateChart :=
  ⟨name, description, bootstrap, [(root.name, root)], [(root.name, none)], [], root.name⟩

/-- The untyped `parent` argument of `register_state`: either a state object
(a `StateMixin`, whose `.name` is used) or a raw value stored as-is
(a name string, or `None`). -/
inductive ParentArg where
  | stateArg (s : State)
  | nameArg (n : Option String)
  deriving DecidableEq

/-- Evaluation of `parent.name if isinstance(parent, StateMixin) else parent`. -/
def ParentArg.resolvedName : ParentArg → Option String
  | .stateArg s => some s.name
  | .nameArg n => n

/-- The `register_state` method.  It raises the duplicate-name
`InvalidStatechartError` before any mutation; otherwise it inserts the state
into `_states` and `_parent` and only then evaluates
`self._states[self._parent[state.name]].children.append(state.name)`, which can
raise `KeyError` (unknown parent name or `None`) or `AttributeError` (parent
without a `children` attribute) after the two insertions already happened.
The pair returned is the chart as mutated so far plus the raised error, if any. -/
def register_state (c : StateChart) (state : State) (parent : ParentArg) :
    StateChart × Option PyErr :=
  if (dictKeys c.states).contains state.name then
    (c, some (.invalidStatechart (.duplicate state.name)))
  else
    match parent.resolvedName with
    | none =>
      (⟨c.name, c.description, c.bootstrap, dictSet c.states state.name state,
        dictSet c.parent state.name none, c.transitions, c.root⟩, some .keyError)
    | some p =>
      match dictGet? (dictSet c.states state.name state) p with
      | none =>
        (⟨c.name, c.description, c.bootstrap, dictSet c.states state.name state,
          dictSet c.parent state.name (some p), c.transitions, c.root⟩, some .keyError)
      | some pstate =>
        match pstate.childrenAttr with
        | none =>
          (⟨c.name, c.description, c.bootstrap, dictSet c.states state.name state,
            dictSet c.parent state.name (some p), c.transitions, c.root⟩, some .attributeError)
        | some _ =>
          (⟨c.name, c.description, c.bootstrap,
            dictSet (dictSet c.states state.name state) p (pstate.appendChild state.name),
            dictSet c.parent state.name (some p), c.transitions, c.root⟩, none)

/-- The `register_transition` method: appends to the global list first, then
evaluates `self._states[transition.from_state].transitions.append(transition)`,
which can raise `KeyError` (unknown source) or `AttributeError` (source without
a `transitions` attribute) after the global append already happened. -/
def register_transition (c : StateChart) (t : Transition) : StateChart × Option PyErr :=
  match dictGet? c.states t.from_state with
  | none =>
    (⟨c.name, c.description, c.bootstrap, c.states, c.parent,
      c.transitions ++ [t], c.root⟩, some .keyError)
  | some st =>
    match st.transitionsAttr with
    | none =>
      (⟨c.name, c.description, c.bootstrap, c.states, c.parent,
        c.transitions ++ [t], c.root⟩, some .attributeError)
    | some _ =>
      (⟨c.name, c.description, c.bootstrap,
        dictSet c.states t.from_state (st.appendTransition t), c.parent,
        c.transitions ++ [t], c.root⟩, none)

/-- The `while parent:` loop of `ancestors_for`, on fuel.  The loop stops when
the current parent value is falsy (`None` or `""`); otherwise it appends the
parent name and looks its own parent up (`KeyError` when absent).  Exhausted
fuel models the non-terminating run on a parent cycle. -/
def ancestorsGo (par : List (String × Option String)) : Nat → Option String → Except PyErr (List String)
  | _, none => .ok []
  | 0, some p => if p = "" then .ok [] else .error .nonTermination
  | fuel + 1, some p =>
    if p = "" then .ok []
    else
      match dictGet? par p with
      | none => .error .keyError
      | some next =>
        match ancestorsGo par fuel next with
        | .error e => .error e
        | .ok rest => .ok (p :: rest)

/-- The `ancestors_for` method: ancestors of a state, nearest parent first.
The initial `self._parent[state]` lookup raises `KeyError` on an unregistered
name.  Fuel `len(self._parent) + 1` is enough for every terminating run. -/
def ancestors_for (c : StateChart) (state : String) : Except PyErr (List String) :=
  match dictGet? c.parent state with
  | none => .error .keyError
  | some v => ancestorsGo c.parent (c.parent.length + 1) v

/-- The `depth_for` method: `len(self.ancestors_for(state)) + 1`. -/
def depth_for (c : StateChart) (state : String) : Except PyErr Nat :=
  match ancestors_for c state with
  | .error e => .error e
  | .ok l => .ok (l.length + 1)

/-- The `least_common_ancestor` method: the first entry of `ancestors_for(s1)`
that is also in `ancestors_for(s2)`, or `None` when the loop falls through. -/
def least_common_ancestor (c : StateChart) (s1 s2 : String) : Except PyErr (Option String) :=
  match ancestors_for c s1 with
  | .error e => .error e
  | .ok a =>
    match ancestors_for c s2 with
    | .error e => .error e
    | .ok b => .ok (a.find? (fun x => b.contains x))

/-- The rule C1 condition of `validate`, for one transition:
`transition.from_state in self._states and (not transition.to_state or transition.to_state in self._states)`. -/
def c1Holds (states : List (String × State)) (t : Transition) : Bool :=
  (dictKeys states).contains t.from_state &&
    (!(pyTruthyOptStr t.to_state) ||
      (match t.to_state with
       | some ts => (dictKeys states).contains ts
       | none => false))

/-- The rule C5 violation condition of `validate`, for one transition:
`not transition.event and not transition.guard and not transition.to_state`. -/
def c5Violation (t : Transition) : Bool :=
  !(pyTruthyOptStr t.event) && !(pyTruthyOptStr t.guard) && !(pyTruthyOptStr t.to_state)

/-- The first loop of `validate` (rules C1 and C5), raising on the first
offending transition. -/
def checkTransitionsPass1 (states : List (String × State)) : List Transition → Except PyErr Unit
  | [] => .ok ()
  | t :: rest =>
    if !(c1Holds states t) then .error (.invalidStatechart (.ruleC1 t))
    else if c5Violation t then .error (.invalidStatechart (.ruleC5 t))
    else checkTransitionsPass1 states rest

/-- `self._states.get(self._parent.get(name, None), None)`:
the state object registered under an optional name. -/
def stateForOpt (states : List (String × State)) : Option String → Option State
  | none => none
  | some s => dictGet? states s

/-- Whether an optional state object is a `CompoundState` (the rule C2 test). -/
def isCompoundOpt : Option State → Bool
  | some (.compound _ _ _ _ _ _ _) => true
  | _ => false

/-- The per-state checks of `validate`'s second loop, in source order:
C2 (a history state's parent must be a `CompoundState`), C4 (a composite state
must have at least one child), C3 (a truthy `initial` of a `CompoundState`
must name one of its children). -/
def checkStateRules (states : List (String × State)) (parentMap : List (String × Option String))
    (name : String) (st : State) : Except PyErr Unit :=
  if st.isHistory && !(isCompoundOpt (stateForOpt states ((dictGet? parentMap name).getD none))) then
    .error (.invalidStatechart (.ruleC2 name))
  else if st.isComposite && decide ((st.childrenAttr.getD []).length ≤ 0) then
    .error (.invalidStatechart (.ruleC4 name))
  else
    match st with
    | .compound _ _ _ _ _ ch init =>
      if pyTruthyOptStr init && !(ch.contains (init.getD "")) then
        .error (.invalidStatechart (.ruleC3 name))
      else .ok ()
    | _ => .ok ()

/-- The second loop of `validate` over `self._states.items()`, raising on the
first offending state. -/
def checkStatesPass2 (states : List (String × State)) (parentMap : List (String × Option String)) :
    List (String × State) → Except PyErr Unit
  | [] => .ok ()
  | entry :: rest =>
    match checkStateRules states parentMap entry.1 entry.2 with
    | .error e => .error e
    | .ok _ => checkStatesPass2 states parentMap rest

/-- One step of `validate`'s rule C6 loop:
`target_state = self._states.get(transition.to_state, self._states[transition.from_state])`
(the default is evaluated eagerly, so an unknown source raises `KeyError`),
then raise C6 when the target is a `CompoundState` with falsy `initial`. -/
def checkC6Step (states : List (String × State)) (t : Transition) : Except PyErr Unit :=
  match dictGet? states t.from_state with
  | none => .error .keyError
  | some fallback =>
    let target : State :=
      match t.to_state with
      | none => fallback
      | some ts => (dictGet? states ts).getD fallback
    if target.isCompoundNoInitial then .error (.invalidStatechart (.ruleC6 target.name))
    else .ok ()

/-- The third loop of `validate` (rule C6), raising on the first offending
transition. -/
def checkC6Pass3 (states : List (String × State)) : List Transition → Except PyErr Unit
  | [] => .ok ()
  | t :: rest =>
    match checkC6Step states t with
    | .error e => .error e
    | .ok _ => checkC6Pass3 states rest

/-- The `validate` method: the C1/C5 transition pass, then the per-state pass
(C2, C4, C3), then the C6 transition pass; returns `True` if nothing raised. -/
def validate (c : StateChart) : Except PyErr Bool :=
  match checkTransitionsPass1 c.states c.transitions with
  | .error e => .error e
  | .ok _ =>
    match checkStatesPass2 c.states c.parent c.states with
    | .error e => .error e
    | .ok _ =>
      match checkC6Pass3 c.states c.transitions with
      | .error e => .error e
      | .ok _ => .ok true

/-- A micro step (`MicroStep` in `model.py`): optional consumed event, optional
fired transition (the source stores `[]`, a falsy placeholder, for a missing
transition; only its truthiness is ever observed, so it is an `Option` here),
and the ordered entered/exited state-name lists. -/
structure MicroStep where
  event : Option Event
  transition : Option Transition
  entered_states : List String
  exited_states : List String
  deriving DecidableEq

/-- A macro step (`MacroStep` in `model.py`): a timestamp and its micro steps. -/
structure MacroStep where
  time : Rat
  steps : List MicroStep
  deriving DecidableEq

/-- The derived `MacroStep.event` property: the first truthy event among the
micro steps (every `Event` object is truthy), or `None`. -/
def MacroStep.event (m : MacroStep) : Option Event :=
  m.steps.findSome? (fun s => s.event)

/-- Modelled from the spec: the `stories` module (`Story`, `Pause`) is not under
`src/`.  Per §4.5 a story is an ordered sequence of events interleaved with
pause markers carrying a duration, built by appending. -/
inductive StoryItem where
  | ev (e : Event)
  | pause (duration : Rat)
  deriving DecidableEq

/-- Modelled from the spec: a `Story` is the ordered sequence itself. -/
abbrev Story : Type := List StoryItem

/-- The inner loops of `story_from_trace` over one micro step.  Each `append`
here calls `Event('exited', {'state': state})`, `Event('processed', {...})` or
`Event('entered', {'state': state})` — a call that passes a dict as a second
positional argument, while `Event.__init__(self, name, **additional_parameters)`
accepts only the name positionally.  Python therefore raises `TypeError` at the
first such construction. -/
def microStoryItems (m : MicroStep) : Except PyErr (List StoryItem) :=
  match m.exited_states with
  | _ :: _ => .error .typeError
  | [] =>
    match m.transition with
    | some _ => .error .typeError
    | none =>
      match m.entered_states with
      | _ :: _ => .error .typeError
      | [] => .ok []

/-- The `for microstep in macrostep.steps` loop of `story_from_trace`. -/
def microLoop : List MicroStep → Except PyErr (List StoryItem)
  | [] => .ok []
  | m :: rest =>
    match microStoryItems m with
    | .error e => .error e
    | .ok items =>
      match microLoop rest with
      | .error e => .error e
      | .ok more => .ok (items ++ more)

/-- One iteration of `story_from_trace`'s outer loop: emit a pause when the
macro step's time is ahead of the clock, then — if the macro step consumed an
event — evaluate `Event('consumed', {'event': macrostep.event})`, a call with a
positional dict that raises `TypeError`; then process the micro steps. -/
def macroStoryStep (time : Rat) (ms : MacroStep) : Except PyErr (Rat × List StoryItem) :=
  let pausePart : Rat × List StoryItem :=
    if time < ms.time then (ms.time, [.pause (ms.time - time)]) else (time, [])
  match ms.event with
  | some _ => .error .typeError
  | none =>
    match microLoop ms.steps with
    | .error e => .error e
    | .ok items => .ok (pausePart.1, pausePart.2 ++ items)

/-- The `for macrostep in trace` loop of `story_from_trace`, threading the clock. -/
def traceLoop : Rat → List MacroStep → Except PyErr (List StoryItem)
  | _, [] => .ok []
  | time, ms :: rest =>
    match macroStoryStep time ms with
    | .error e => .error e
    | .ok (t', items) =>
      match traceLoop t' rest with
      | .error e => .error e
      | .ok more => .ok (items ++ more)

/-- The `story_from_trace` function of `testing.py`: a `started` event, the
projected trace, a `stopped` event. -/
def story_from_trace (trace : List MacroStep) : Except PyErr Story :=
  match traceLoop 0 trace with
  | .error e => .error e
  | .ok items => .ok ([StoryItem.ev ⟨"started", []⟩] ++ items ++ [StoryItem.ev ⟨"stopped", []⟩])

/-- Specification-side description of the list `ancestors_for` computes:
`PChain par v l` says that starting from parent value `v`, repeatedly following
`par` while the value is truthy (neither `None` nor `""`) emits exactly the
names in `l`, and that the walk terminates. -/
inductive PChain (par : List (String × Option String)) : Option String → List String → Prop where
  | stopNone : PChain par none []
  | stopEmpty : PChain par (some "") []
  | step (p : String) (v : Option String) (l : List String) :
      p ≠ "" → dictGet? par p = some v → PChain par v l → PChain par (some p) (p :: l)

/-- Executable well-formedness of a successfully built chart, relative to a
rank function witnessing that registration is append-only: the state and parent
maps share their keys, the root is mapped to `None` and is the only name mapped
to `None`, every recorded parent is itself registered, ranks are bounded by the
map's size, and every parent link either is a self-link or strictly decreases
the rank (a successful `register_state` call requires its parent to be present
in the map that already includes the state being registered, so the parent was
registered earlier or is the state itself). -/
def builtWithB (c : StateChart) (rank : String → Nat) : Bool :=
  (dictKeys c.states == dictKeys c.parent) &&
  (dictGet? c.parent c.root == some none) &&
  (dictKeys c.parent).all (fun s =>
    decide (rank s < c.parent.length) &&
    (match dictGet? c.parent s with
     | some (some p) => (dictKeys c.parent).contains p && ((p == s) || decide (rank p < rank s))
     | some none => s == c.root
     | none => true))

/-- A chart is built when some rank function witnesses `builtWithB`. -/
def Built (c : StateChart) : Prop := ∃ rank : String → Nat, builtWithB c rank = true

/-- Every registered state name is non-empty (not guaranteed by construction:
`""` is a legal Python state name, and a falsy one). -/
def NonemptyNames (c : StateChart) : Prop := ∀ s ∈ dictKeys c.parent, s ≠ ""

/-- No state is recorded as its own parent (not guaranteed by construction:
`register_state(x, x.name)` succeeds for a fresh composite `x`). -/
def NoSelfParent (c : StateChart) : Prop :=
  ∀ s ∈ dictKeys c.parent, dictGet? c.parent s ≠ some (some s)

/-- The effective target state of a transition exactly as rule C6 looks it up:
`self._states.get(transition.to_state, self._states[transition.from_state])`;
`none` only when even the source is unregistered. -/
def effectiveTarget (states : List (String × State)) (t : Transition) : Option State :=
  match dictGet? states t.from_state with
  | none => none
  | some fallback =>
    some (match t.to_state with
          | none => fallback
          | some ts => (dictGet? states ts).getD fallback)

/-- Claim-side reading of rule C6, following the claim's words: the effective
target is the state named by `to_state` whenever `to_state` is present (not
`None`), else the state named by the transition's own source, and the rule
fires when that state is a `CompoundState` whose `initial` is not set. -/
def claimC6Bad (states : List (String × State)) (t : Transition) : Bool :=
  match (match t.to_state with
         | some ts => dictGet? states ts
         | none => dictGet? states t.from_state) with
  | some (.compound _ _ _ _ _ _ none) => true
  | _ => false

/-- An empty contract, for example states and transitions. -/
def emptyContract : Contract := ⟨[], [], []⟩

/-- Example basic state `A`. -/
def stA : State := State.basic emptyContract "A" [] none none

/-- Example basic state `B`. -/
def stB : State := State.basic emptyContract "B" [] none none

/-- Example root: compound `R` with children `A`, `B` and initial `A`. -/
def rootR : State := State.compound emptyContract "R" [] none none ["A", "B"] (some "A")

/-- A well-formed example chart: compound root `R` with basic children `A`, `B`. -/
def exGood : StateChart :=
  ⟨"good", none, none,
   [("R", rootR), ("A", stA), ("B", stB)],
   [("R", none), ("A", some "R"), ("B", some "R")],
   [], "R"⟩

/-- A rank function witnessing that `exGood` is built. -/
def rankGood : String → Nat := fun s => if s = "R" then 0 else if s = "A" then 1 else 2

/-- A built chart whose root is named by the empty string and has one child `C`. -/
def ex7 : StateChart :=
  ⟨"emptyroot", none, none,
   [("", State.compound emptyContract "" [] none none ["C"] none),
    ("C", State.basic emptyContract "C" [] none none)],
   [("", none), ("C", some "")],
   [], ""⟩

/-- A rank function witnessing that `ex7` is built. -/
def rank7 : String → Nat := fun s => if s = "" then 0 else 1

/-- A freshly constructed chart: compound root `R`, nothing registered yet. -/
def exInit : StateChart :=
  StateChart.init "chart" (State.compound emptyContract "R" [] none none [] none) none none

theorem contains_true_iff (l : List String) (x : String) : l.contains x = true ↔ x ∈ l := by
  simp [List.contains]

theorem dictGet?_mem_keys {α : Type} :
    ∀ (d : List (String × α)) (s : String) (v : α), dictGet? d s = some v → s ∈ dictKeys d := by
  intro d
  induction d with
  | nil => intro s v h; simp [dictGet?] at h
  | cons kv rest ih =>
    intro s v h
    simp only [dictGet?] at h
    by_cases hs : s = kv.1
    · simp [dictKeys, hs]
    · rw [if_neg hs] at h
      have := ih s v h
      simp only [dictKeys, List.map_cons, List.mem_cons]
      exact Or.inr (by simpa [dictKeys] using this)

theorem dictGet?_isSome_of_mem {α : Type} :
    ∀ (d : List (String × α)) (s : String), s ∈ dictKeys d → (dictGet? d s).isSome = true := by
  intro d
  induction d with
  | nil => intro s h; simp [dictKeys] at h
  | cons kv rest ih =>
    intro s h
    simp only [dictGet?]
    by_cases hs : s = kv.1
    · rw [if_pos hs]; rfl
    · rw [if_neg hs]
      apply ih
      simp only [dictKeys, List.map_cons, List.mem_cons] at h
      rcases h with h | h
      · exact absurd h hs
      · simpa [dictKeys] using h

theorem dictGet?_map_replace {α : Type} (k : String) (v : α) :
    ∀ d : List (String × α), k ∈ dictKeys d →
      dictGet? (d.map (fun kv => if kv.1 = k then (k, v) else kv)) k = some v := by
  intro d
  induction d with
  | nil => intro h; simp [dictKeys] at h
  | cons kv rest ih =>
    intro h
    by_cases h1 : kv.1 = k
    · simp [List.map_cons, if_pos h1, dictGet?]
    · simp only [List.map_cons, if_neg h1, dictGet?]
      rw [if_neg (fun hh => h1 hh.symm)]
      apply ih
      simp only [dictKeys, List.map_cons, List.mem_cons] at h
      rcases h with h | h
      · exact absurd h.symm h1
      · simpa [dictKeys] using h

theorem dictGet?_append_of_not_mem {α : Type} (e : List (String × α)) (k : String) :
    ∀ d : List (String × α), k ∉ dictKeys d → dictGet? (d ++ e) k = dictGet? e k := by
  intro d
  induction d with
  | nil => intro _; rfl
  | cons kv rest ih =>
    intro h
    simp only [dictKeys, List.map_cons, List.mem_cons, not_or] at h
    simp only [List.cons_append, dictGet?, if_neg h.1]
    exact ih (by simpa [dictKeys] using h.2)

theorem dictGet?_dictSet_self {α : Type} (d : List (String × α)) (k : String) (v : α) :
    dictGet? (dictSet d k v) k = some v := by
  unfold dictSet
  by_cases hc : (dictKeys d).contains k = true
  · rw [if_pos hc]
    exact dictGet?_map_replace k v d ((contains_true_iff _ _).mp hc)
  · rw [if_neg hc]
    rw [dictGet?_append_of_not_mem _ _ _ (fun hm => hc ((contains_true_iff _ _).mpr hm))]
    simp [dictGet?]

theorem find?_split {α : Type} (p : α → Bool) :
    ∀ (l : List α) (x : α), l.find? p = some x →
      ∃ l₁ l₂, l = l₁ ++ x :: l₂ ∧ p x = true ∧ ∀ z ∈ l₁, p z = false := by
  intro l
  induction l with
  | nil => intro x h; simp at h
  | cons a l ih =>
    intro x h
    by_cases hpa : p a = true
    · rw [List.find?_cons_of_pos _ hpa] at h
      obtain rfl : a = x := by injection h
      exact ⟨[], l, rfl, hpa, by intro z hz; simp at hz⟩
    · rw [List.find?_cons_of_neg _ hpa] at h
      obtain ⟨l₁, l₂, rfl, hx, hmiss⟩ := ih x h
      refine ⟨a :: l₁, l₂, rfl, hx, ?_⟩
      intro z hz
      rcases List.mem_cons.mp hz with rfl | hz'
      · exact Bool.not_eq_true _ ▸ (by simpa using hpa)
      · exact hmiss z hz'

theorem bw_keys_eq {c : StateChart} {rank : String → Nat} (hb : builtWithB c rank = true) :
    dictKeys c.states = dictKeys c.parent := by
  unfold builtWithB at hb
  simp only [Bool.and_eq_true, beq_iff_eq] at hb
  exact hb.1.1

theorem bw_root {c : StateChart} {rank : String → Nat} (hb : builtWithB c rank = true) :
    dictGet? c.parent c.root = some none := by
  unfold builtWithB at hb
  simp only [Bool.and_eq_true, beq_iff_eq] at hb
  exact hb.1.2

theorem bw_entry {c : StateChart} {rank : String → Nat} (hb : builtWithB c rank = true)
    {s : String} (hs : s ∈ dictKeys c.parent) :
    rank s < c.parent.length ∧
    ∀ v, dictGet? c.parent s = some v →
      (v = none → s = c.root) ∧
      ∀ p, v = some p → p ∈ dictKeys c.parent ∧ (p = s ∨ rank p < rank s) := by
  unfold builtWithB at hb
  simp only [Bool.and_eq_true, List.all_eq_true] at hb
  have h := hb.2 s hs
  simp only [Bool.and_eq_true, decide_eq_true_eq] at h
  refine ⟨h.1, ?_⟩
  intro v hg
  have h2 := h.2
  rw [hg] at h2
  constructor
  · intro hv
    subst hv
    simpa using h2
  · intro p hv
    subst hv
    simp only [Bool.and_eq_true, Bool.or_eq_true, beq_iff_eq, decide_eq_true_eq] at h2
    exact ⟨(contains_true_iff _ _).mp h2.1, h2.2⟩

theorem bw_bound {c : StateChart} {rank : String → Nat} (hb : builtWithB c rank = true)
    {s : String} (hs : s ∈ dictKeys c.parent) : rank s < c.parent.length :=
  (bw_entry hb hs).1

theorem bw_only_root {c : StateChart} {rank : String → Nat} (hb : builtWithB c rank = true)
    {s : String} (hg : dictGet? c.parent s = some none) : s = c.root :=
  (((bw_entry hb (dictGet?_mem_keys _ _ _ hg)).2 none hg).1) rfl

theorem bw_parent_key {c : StateChart} {rank : String → Nat} (hb : builtWithB c rank = true)
    {s p : String} (hg : dictGet? c.parent s = some (some p)) : p ∈ dictKeys c.parent :=
  ((((bw_entry hb (dictGet?_mem_keys _ _ _ hg)).2 (some p) hg).2) p rfl).1

theorem bw_rank {c : StateChart} {rank : String → Nat} (hb : builtWithB c rank = true)
    {s p : String} (hg : dictGet? c.parent s = some (some p)) : p = s ∨ rank p < rank s :=
  ((((bw_entry hb (dictGet?_mem_keys _ _ _ hg)).2 (some p) hg).2) p rfl).2

theorem pchain_of_ok (par : List (String × Option String)) :
    ∀ (fuel : Nat) (v : Option String) (l : List String),
      ancestorsGo par fuel v = .ok l → PChain par v l := by
  intro fuel
  induction fuel with
  | zero =>
    intro v l h
    match v with
    | none =>
      simp only [ancestorsGo] at h
      injection h with h; subst h
      exact PChain.stopNone
    | some p =>
      simp only [ancestorsGo] at h
      by_cases hp : p = ""
      · rw [if_pos hp] at h
        injection h with h; subst h; subst hp
        exact PChain.stopEmpty
      · rw [if_neg hp] at h
        exact absurd h (by simp)
  | succ f ih =>
    intro v l h
    match v with
    | none =>
      simp only [ancestorsGo] at h
      injection h with h; subst h
      exact PChain.stopNone
    | some p =>
      simp only [ancestorsGo] at h
      by_cases hp : p = ""
      · rw [if_pos hp] at h
        injection h with h; subst h; subst hp
        exact PChain.stopEmpty
      · rw [if_neg hp] at h
        split at h
        · simp at h
        · rename_i next hg
          split at h
          · simp at h
          · rename_i rest hr
            injection h with h; subst h
            exact PChain.step p next rest hp hg (ih next rest hr)

theorem pchain_no_self (par : List (String × Option String)) (p : String)
    (hne : p ≠ "") (hget : dictGet? par p = some (some p)) :
    ∀ l, ¬ PChain par (some p) l := by
  intro l
  induction l with
  | nil =>
    intro h
    cases h with
    | stopEmpty => exact hne rfl
  | cons a l ih =>
    intro h
    cases h with
    | step _ v' l' hne' hget' hch' =>
      rw [hget] at hget'
      have hv : some p = v' := Option.some.inj hget'
      rw [← hv] at hch'
      exact ih hch'

theorem pchain_suffix (par : List (String × Option String)) :
    ∀ (l₁ : List String) (x : String) (l₂ : List String) (v : Option String),
      PChain par v (l₁ ++ x :: l₂) → ∃ w, dictGet? par x = some w ∧ PChain par w l₂ := by
  intro l₁
  induction l₁ with
  | nil =>
    intro x l₂ v h
    simp only [List.nil_append] at h
    cases h with
    | step _ v' l' hne hget hch => exact ⟨v', hget, hch⟩
  | cons a l₁ ih =>
    intro x l₂ v h
    simp only [List.cons_append] at h
    cases h with
    | step _ v' l' hne hget hch => exact ih x l₂ v' hch

theorem pchain_rank_lt {c : StateChart} {rank : String → Nat} (hb : builtWithB c rank = true) :
    ∀ {v : Option String} {l : List String}, PChain c.parent v l →
      ∀ y, dictGet? c.parent y = some v → ∀ x, x ∈ l → rank x < rank y := by
  intro v l hch
  induction hch with
  | stopNone => intro y _ x hx; simp at hx
  | stopEmpty => intro y _ x hx; simp at hx
  | step p v' l' hne hget hch' ih =>
    intro y hy x hx
    have hpy : rank p < rank y := by
      rcases bw_rank hb hy with h | h
      · subst h
        exact absurd (PChain.step p v' l' hne hget hch') (pchain_no_self _ p hne hy _)
      · exact h
    rcases List.mem_cons.mp hx with rfl | hx'
    · exact hpy
    · exact lt_trans (ih p hget x hx') hpy

theorem ancestorsGo_error (par : List (String × Option String)) :
    ∀ (fuel : Nat) (v : Option String) (e : PyErr),
      ancestorsGo par fuel v = .error e → e = PyErr.keyError ∨ e = PyErr.nonTermination := by
  intro fuel
  induction fuel with
  | zero =>
    intro v e h
    match v with
    | none => simp [ancestorsGo] at h
    | some p =>
      simp only [ancestorsGo] at h
      by_cases hp : p = ""
      · rw [if_pos hp] at h; simp at h
      · rw [if_neg hp] at h
        injection h with h
        exact Or.inr h.symm
  | succ f ih =>
    intro v e h
    match v with
    | none => simp [ancestorsGo] at h
    | some p =>
      simp only [ancestorsGo] at h
      by_cases hp : p = ""
      · rw [if_pos hp] at h; simp at h
      · rw [if_neg hp] at h
        split at h
        · injection h with h
          exact Or.inl h.symm
        · rename_i next hg
          split at h
          · rename_i e' hr
            injection h with h
            subst h
            exact ih next e' hr
          · simp at h

theorem ancestorsGo_no_key {c : StateChart} {rank : String → Nat} (hb : builtWithB c rank = true) :
    ∀ (fuel : Nat) (v : Option String),
      (∀ p, v = some p → p ∈ dictKeys c.parent) →
      ancestorsGo c.parent fuel v ≠ .error PyErr.keyError := by
  intro fuel
  induction fuel with
  | zero =>
    intro v hadm h
    match v with
    | none => simp [ancestorsGo] at h
    | some p =>
      simp only [ancestorsGo] at h
      by_cases hp : p = ""
      · rw [if_pos hp] at h; simp at h
      · rw [if_neg hp] at h
        injection h with h
        exact PyErr.noConfusion h
  | succ f ih =>
    intro v hadm h
    match v with
    | none => simp [ancestorsGo] at h
    | some p =>
      simp only [ancestorsGo] at h
      by_cases hp : p = ""
      · rw [if_pos hp] at h; simp at h
      · rw [if_neg hp] at h
        split at h
        · rename_i hg
          have := dictGet?_isSome_of_mem _ _ (hadm p rfl)
          rw [hg] at this
          simp at this
        · rename_i next hg
          split at h
          · rename_i e' hr
            injection h with h
            subst h
            refine ih next ?_ hr
            intro q hq
            subst hq
            exact bw_parent_key hb hg
          · simp at h

theorem ancestorsGo_complete {c : StateChart} {rank : String → Nat} (hb : builtWithB c rank = true)
    (hnames : NonemptyNames c) (hns : NoSelfParent c) :
    ∀ (fuel : Nat) (v : Option String),
      (v = none ∨ ∃ p, v = some p ∧ p ∈ dictKeys c.parent ∧ rank p < fuel) →
      ∃ l, ancestorsGo c.parent fuel v = .ok l := by
  intro fuel
  induction fuel with
  | zero =>
    intro v hadm
    rcases hadm with rfl | ⟨p, rfl, _, hlt⟩
    · exact ⟨[], rfl⟩
    · exact absurd hlt (Nat.not_lt_zero _)
  | succ f ih =>
    intro v hadm
    rcases hadm with rfl | ⟨p, rfl, hpk, hlt⟩
    · exact ⟨[], rfl⟩
    · have hpne : p ≠ "" := hnames p hpk
      have hsome := dictGet?_isSome_of_mem _ _ hpk
      rcases hg : dictGet? c.parent p with _ | next
      · rw [hg] at hsome; simp at hsome
      · rcases next with _ | q
        · obtain ⟨rest, hrest⟩ := ih none (Or.inl rfl)
          exact ⟨p :: rest, by simp [ancestorsGo, hpne, hg, hrest]⟩
        · have hqk := bw_parent_key hb hg
          have hrk : rank q < rank p := by
            rcases bw_rank hb hg with hqq | hqq
            · exact absurd hg (by rw [hqq]; exact hns p hpk)
            · exact hqq
          obtain ⟨rest, hrest⟩ := ih (some q) (Or.inr ⟨q, rfl, hqk, by omega⟩)
          exact ⟨p :: rest, by simp [ancestorsGo, hpne, hg, hrest]⟩

theorem pchain_last_root {c : StateChart} {rank : String → Nat} (hb : builtWithB c rank = true)
    (hnames : NonemptyNames c) :
    ∀ (v : Option String) (l : List String), PChain c.parent v l →
      ∀ (h : l ≠ []), l.getLast h = c.root := by
  intro v l hch h
  have hdec := List.dropLast_concat_getLast h
  rw [← hdec] at hch
  obtain ⟨w, hgz, hch0⟩ := pchain_suffix c.parent l.dropLast (l.getLast h) [] v hch
  cases hch0 with
  | stopNone => exact bw_only_root hb hgz
  | stopEmpty => exact absurd rfl (hnames "" (bw_parent_key hb hgz))

theorem find?_mem_symm {c : StateChart} {rank : String → Nat} (hb : builtWithB c rank = true)
    {A B : List String} {va vb : Option String}
    (hA : PChain c.parent va A) (hB : PChain c.parent vb B) :
    A.find? (fun x => B.contains x) = B.find? (fun x => A.contains x) := by
  rcases fa : A.find? (fun x => B.contains x) with _ | x
  · rcases fb : B.find? (fun x => A.contains x) with _ | w
    · rfl
    · exfalso
      have hwB := List.mem_of_find?_eq_some fb
      have hwA : w ∈ A := (contains_true_iff _ _).mp (List.find?_some fb)
      exact (List.find?_eq_none.mp fa w hwA) ((contains_true_iff _ _).mpr hwB)
  · have hxA := List.mem_of_find?_eq_some fa
    have hxB : x ∈ B := (contains_true_iff _ _).mp (List.find?_some fa)
    rcases fb : B.find? (fun x => A.contains x) with _ | w
    · exfalso
      exact (List.find?_eq_none.mp fb x hxB) ((contains_true_iff _ _).mpr hxA)
    · have hwB := List.mem_of_find?_eq_some fb
      have hwA : w ∈ A := (contains_true_iff _ _).mp (List.find?_some fb)
      by_cases hxw : x = w
      · rw [hxw]
      · exfalso
        obtain ⟨A₁, A₂, hAeq, _, hAmiss⟩ := find?_split _ A x fa
        obtain ⟨B₁, B₂, hBeq, _, hBmiss⟩ := find?_split _ B w fb
        have hxB2 : x ∈ B₂ := by
          rw [hBeq] at hxB
          rcases List.mem_append.mp hxB with h1 | h2
          · have hf := hBmiss x h1
            simp only at hf
            rw [(contains_true_iff _ _).mpr hxA] at hf
            exact Bool.noConfusion hf
          · rcases List.mem_cons.mp h2 with h | h
            · exact absurd h hxw
            · exact h
        have hwA2 : w ∈ A₂ := by
          rw [hAeq] at hwA
          rcases List.mem_append.mp hwA with h1 | h2
          · have hf := hAmiss w h1
            simp only at hf
            rw [(contains_true_iff _ _).mpr hwB] at hf
            exact Bool.noConfusion hf
          · rcases List.mem_cons.mp h2 with h | h
            · exact absurd h.symm hxw
            · exact h
        obtain ⟨u, hgx, hchA2⟩ := pchain_suffix c.parent A₁ x A₂ va (hAeq ▸ hA)
        obtain ⟨u', hgw, hchB2⟩ := pchain_suffix c.parent B₁ w B₂ vb (hBeq ▸ hB)
        have h1 : rank w < rank x := pchain_rank_lt hb hchA2 x hgx w hwA2
        have h2 : rank x < rank w := pchain_rank_lt hb hchB2 w hgw x hxB2
        omega

/-- C6: `least_common_ancestor` is symmetric: for every built statechart and
every pair of registered states `a` and `b`, `least_common_ancestor(a, b)`
equals `least_common_ancestor(b, a)` (identical values, and identical failure
behavior on the degenerate charts where the parent walk does not terminate). -/
theorem least_common_ancestor_symm (c : StateChart) (hb : Built c) (a b : String)
    (ha : a ∈ dictKeys c.states) (hbm : b ∈ dictKeys c.states) :
    least_common_ancestor c a b = least_common_ancestor c b a := by
  obtain ⟨rank, hbw⟩ := hb
  rw [bw_keys_eq hbw] at ha hbm
  obtain ⟨va, hva⟩ := Option.isSome_iff_exists.mp (dictGet?_isSome_of_mem _ _ ha)
  obtain ⟨vb, hvb⟩ := Option.isSome_iff_exists.mp (dictGet?_isSome_of_mem _ _ hbm)
  have hadma : ∀ p, va = some p → p ∈ dictKeys c.parent := by
    intro p hp; subst hp; exact bw_parent_key hbw hva
  have hadmb : ∀ p, vb = some p → p ∈ dictKeys c.parent := by
    intro p hp; subst hp; exact bw_parent_key hbw hvb
  unfold least_common_ancestor ancestors_for
  simp only [hva, hvb]
  rcases hra : ancestorsGo c.parent (c.parent.length + 1) va with ea | A
  · rcases hrb : ancestorsGo c.parent (c.parent.length + 1) vb with eb | B
    · have n1 := ancestorsGo_no_key hbw (c.parent.length + 1) va hadma
      have n2 := ancestorsGo_no_key hbw (c.parent.length + 1) vb hadmb
      rw [hra] at n1
      rw [hrb] at n2
      have hea : ea = PyErr.nonTermination := by
        rcases ancestorsGo_error _ _ _ _ hra with h | h
        · exact absurd (by rw [h]) n1
        · exact h
      have heb : eb = PyErr.nonTermination := by
        rcases ancestorsGo_error _ _ _ _ hrb with h | h
        · exact absurd (by rw [h]) n2
        · exact h
      rw [hea, heb]
    · rfl
  · rcases hrb : ancestorsGo c.parent (c.parent.length + 1) vb with eb | B
    · rfl
    · simp only []
      exact congrArg Except.ok
        (find?_mem_symm hbw (pchain_of_ok _ _ _ _ hra) (pchain_of_ok _ _ _ _ hrb))

/-- Witness for C6: the symmetry theorem applied to the concrete chart
`exGood` at the registered states `A` and `B`. -/
theorem least_common_ancestor_symm_witness :
    least_common_ancestor exGood "A" "B" = least_common_ancestor exGood "B" "A" :=
  least_common_ancestor_symm exGood ⟨rankGood, by decide⟩ "A" "B" (by decide) (by decide)

instance (c : StateChart) : Decidable (NonemptyNames c) := by
  unfold NonemptyNames; infer_instance

instance (c : StateChart) : Decidable (NoSelfParent c) := by
  unfold NoSelfParent; infer_instance

/-- Counterexample to C7 as stated: `ex7` is a built statechart whose root is
named by the empty string; `C` is registered and has the root as its proper
ancestor (its recorded parent is `""`), so the claimed ancestor chain is
`[""]` (root last) and the claimed depth is 2 — but the parent walk stops at
the falsy empty name, `ancestors_for` returns the empty chain omitting the
root, and `depth_for` returns 1. -/
theorem ancestors_for_empty_root_counterexample :
    Built ex7 ∧ "C" ∈ dictKeys ex7.states ∧ "C" ≠ ex7.root ∧
    dictGet? ex7.parent "C" = some (some "") ∧ "" = ex7.root ∧
    ancestors_for ex7 "C" = .ok [] ∧ depth_for ex7 "C" = .ok 1 :=
  ⟨⟨rank7, by decide⟩, by decide, by decide, by decide, by decide, by decide, by decide⟩

/-- C7 (amended): in a built statechart all of whose state names are non-empty
and in which no state is recorded as its own parent, `ancestors_for(s)`
succeeds for every registered `s` and returns exactly the proper-ancestor
chain of `s`: the parent walk nearest-parent-first (`PChain`), excluding `s`
itself, empty exactly when `s` is the root, with the root as last element;
and `depth_for(s)` equals one plus its length (so the root has depth 1). -/
theorem ancestors_depth_correct (c : StateChart) (hb : Built c)
    (hnames : NonemptyNames c) (hns : NoSelfParent c)
    (s : String) (hs : s ∈ dictKeys c.states) :
    ∃ l, ancestors_for c s = .ok l ∧
      (∃ v, dictGet? c.parent s = some v ∧ PChain c.parent v l) ∧
      s ∉ l ∧
      (l = [] ↔ s = c.root) ∧
      (∀ h : l ≠ [], l.getLast h = c.root) ∧
      depth_for c s = .ok (l.length + 1) := by
  obtain ⟨rank, hbw⟩ := hb
  rw [bw_keys_eq hbw] at hs
  obtain ⟨v, hv⟩ := Option.isSome_iff_exists.mp (dictGet?_isSome_of_mem _ _ hs)
  have hadm : v = none ∨ ∃ p, v = some p ∧ p ∈ dictKeys c.parent ∧ rank p < c.parent.length + 1 := by
    rcases v with _ | p
    · exact Or.inl rfl
    · have hpk := bw_parent_key hbw hv
      exact Or.inr ⟨p, rfl, hpk, by have := bw_bound hbw hpk; omega⟩
  obtain ⟨l, hl⟩ := ancestorsGo_complete hbw hnames hns (c.parent.length + 1) v hadm
  have hch := pchain_of_ok _ _ _ _ hl
  have hanc : ancestors_for c s = .ok l := by
    unfold ancestors_for
    simp only [hv]
    exact hl
  refine ⟨l, hanc, ⟨v, hv, hch⟩, ?_, ?_, ?_, ?_⟩
  · intro hmem
    have := pchain_rank_lt hbw hch s hv s hmem
    omega
  · constructor
    · intro hnil
      subst hnil
      cases hch with
      | stopNone => exact bw_only_root hbw hv
      | stopEmpty => exact absurd rfl (hnames "" (bw_parent_key hbw hv))
    · intro hroot
      subst hroot
      have hvn : v = none := by
        rw [bw_root hbw] at hv
        exact (Option.some.inj hv).symm
      subst hvn
      cases hch with
      | stopNone => rfl
  · exact fun h => pchain_last_root hbw hnames v l hch h
  · unfold depth_for
    rw [hanc]

/-- Witness for the amended C7: the theorem applied to the concrete chart
`exGood` at the registered non-root state `A`. -/
theorem ancestors_depth_correct_witness :
    ∃ l, ancestors_for exGood "A" = .ok l ∧
      (∃ v, dictGet? exGood.parent "A" = some v ∧ PChain exGood.parent v l) ∧
      "A" ∉ l ∧
      (l = [] ↔ "A" = exGood.root) ∧
      (∀ h : l ≠ [], l.getLast h = exGood.root) ∧
      depth_for exGood "A" = .ok (l.length + 1) :=
  ancestors_depth_correct exGood ⟨rankGood, by decide⟩ (by decide) (by decide) "A" (by decide)

/-- Counterexample to C9 as stated: in the built chart `ex7`, `C` is a
registered non-root state whose recorded parent is the root `""`, yet
`least_common_ancestor("C", "C")` returns no ancestor rather than the parent,
because the parent walk stops at the falsy empty name. -/
theorem lca_self_empty_root_counterexample :
    Built ex7 ∧ "C" ∈ dictKeys ex7.states ∧ "C" ≠ ex7.root ∧
    dictGet? ex7.parent "C" = some (some "") ∧
    least_common_ancestor ex7 "C" "C" = .ok none :=
  ⟨⟨rank7, by decide⟩, by decide, by decide, by decide, by decide⟩

/-- C9 (amended): in a built statechart all of whose state names are non-empty
and in which no state is recorded as its own parent,
`least_common_ancestor(s, s)` returns the recorded parent of `s` (not `s`
itself) for every registered non-root `s`, and
`least_common_ancestor(root, root)` returns no ancestor. -/
theorem lca_self (c : StateChart) (hb : Built c)
    (hnames : NonemptyNames c) (hns : NoSelfParent c)
    (s : String) (hs : s ∈ dictKeys c.states) :
    (s ≠ c.root → ∃ p, dictGet? c.parent s = some (some p) ∧
      least_common_ancestor c s s = .ok (some p)) ∧
    least_common_ancestor c c.root c.root = .ok none := by
  obtain ⟨rank, hbw⟩ := hb
  rw [bw_keys_eq hbw] at hs
  constructor
  · intro hsr
    obtain ⟨v, hv⟩ := Option.isSome_iff_exists.mp (dictGet?_isSome_of_mem _ _ hs)
    rcases v with _ | p
    · exact absurd (bw_only_root hbw hv) hsr
    · have hpk := bw_parent_key hbw hv
      obtain ⟨l, hl⟩ := ancestorsGo_complete hbw hnames hns (c.parent.length + 1) (some p)
        (Or.inr ⟨p, rfl, hpk, by have := bw_bound hbw hpk; omega⟩)
      have hch := pchain_of_ok _ _ _ _ hl
      have hanc : ancestors_for c s = .ok l := by
        unfold ancestors_for
        simp only [hv]
        exact hl
      cases hch with
      | stopEmpty => exact absurd rfl (hnames "" hpk)
      | step _ v' l' hne hget hch' =>
        refine ⟨p, hv, ?_⟩
        unfold least_common_ancestor
        rw [hanc]
        have hfind : (p :: l').find? (fun x => (p :: l').contains x) = some p :=
          List.find?_cons_of_pos _ (by simp)
        show Except.ok ((p :: l').find? (fun x => (p :: l').contains x)) = Except.ok (some p)
        rw [hfind]
  · have hvr := bw_root hbw
    unfold least_common_ancestor ancestors_for
    simp only [hvr]
    simp [ancestorsGo]

/-- Witness for the amended C9: the theorem applied to the concrete chart
`exGood` at the registered non-root state `A` and at the root. -/
theorem lca_self_witness :
    (∃ p, dictGet? exGood.parent "A" = some (some p) ∧
      least_common_ancestor exGood "A" "A" = .ok (some p)) ∧
    least_common_ancestor exGood exGood.root exGood.root = .ok none :=
  ⟨(lca_self exGood ⟨rankGood, by decide⟩ (by decide) (by decide) "A" (by decide)).1 (by decide),
   (lca_self exGood ⟨rankGood, by decide⟩ (by decide) (by decide) "A" (by decide)).2⟩

/-- C2: registering a state whose name is already registered fails with the
duplicate-name `InvalidStatechartError` and leaves the chart unchanged (the
duplicate check precedes every mutation), whatever the parent argument is. -/
theorem register_state_duplicate (c : StateChart) (st : State) (pa : ParentArg)
    (h : st.name ∈ dictKeys c.states) :
    register_state c st pa = (c, some (.invalidStatechart (.duplicate st.name))) := by
  unfold register_state
  rw [if_pos ((contains_true_iff _ _).mpr h)]

/-- Witness for C2: re-registering the name `A` on `exGood` fails with the
duplicate-name error and returns the chart unchanged. -/
theorem register_state_duplicate_witness :
    register_state exGood (State.basic emptyContract "A" [] none none)
      (ParentArg.nameArg (some "R")) =
      (exGood, some (.invalidStatechart (.duplicate "A"))) :=
  register_state_duplicate exGood (State.basic emptyContract "A" [] none none)
    (ParentArg.nameArg (some "R")) (by decide)

/-- Counterexample to C10 as stated: on the freshly constructed chart `exInit`,
registering the fresh composite state `X` with the parent argument `"X"` — a
name that is not already registered (it names the very state being added) —
succeeds, because the parent lookup runs against the state map that already
contains the new state. -/
theorem register_state_self_parent_counterexample :
    ("X" ∈ dictKeys exInit.states → False) ∧
    (register_state exInit (State.compound emptyContract "X" [] none none [] none)
      (ParentArg.nameArg (some "X"))).snd = none :=
  ⟨by decide, by decide⟩

/-- C10 (amended): for a fresh state name, `register_state` succeeds exactly
when the parent argument resolves to a name that, in the state map after the
new state's insertion (hence an already-registered state or the new state
itself), refers to a state carrying a `children` attribute (`CompoundState` or
`OrthogonalState`); in every failure case (`None` parent, unregistered parent
name, or a parent without the children capability) the error is raised only
after the state has been inserted into both the state and the parent mappings. -/
theorem register_state_fresh (c : StateChart) (st : State) (pa : ParentArg)
    (h : st.name ∉ dictKeys c.states) :
    ((register_state c st pa).snd = none ↔
      ∃ p ps, pa.resolvedName = some p ∧
        dictGet? (dictSet c.states st.name st) p = some ps ∧
        (ps.childrenAttr).isSome = true) ∧
    ((register_state c st pa).snd ≠ none →
      (register_state c st pa).fst.states = dictSet c.states st.name st ∧
      (register_state c st pa).fst.parent = dictSet c.parent st.name pa.resolvedName ∧
      dictGet? (register_state c st pa).fst.states st.name = some st) := by
  have hcond : ¬ ((dictKeys c.states).contains st.name = true) :=
    fun hc => h ((contains_true_iff _ _).mp hc)
  unfold register_state
  rw [if_neg hcond]
  split
  · rename_i heq
    constructor
    · constructor
      · intro hh; simp at hh
      · rintro ⟨p, ps, hp, -, -⟩
        rw [heq] at hp
        exact Option.noConfusion hp
    · intro _
      exact ⟨rfl, by rw [heq], dictGet?_dictSet_self _ _ _⟩
  · rename_i p heq
    split
    · rename_i hg
      constructor
      · constructor
        · intro hh; simp at hh
        · rintro ⟨p', ps, hp, hps, -⟩
          rw [heq] at hp
          obtain rfl := Option.some.inj hp
          rw [hg] at hps
          exact Option.noConfusion hps
      · intro _
        exact ⟨rfl, by rw [heq], dictGet?_dictSet_self _ _ _⟩
    · rename_i pstate hg
      split
      · rename_i hattr
        constructor
        · constructor
          · intro hh; simp at hh
          · rintro ⟨p', ps, hp, hps, hsome⟩
            rw [heq] at hp
            obtain rfl := Option.some.inj hp
            rw [hg] at hps
            obtain rfl := Option.some.inj hps
            rw [hattr] at hsome
            exact Bool.noConfusion hsome
        · intro _
          exact ⟨rfl, by rw [heq], dictGet?_dictSet_self _ _ _⟩
      · rename_i kids hattr
        constructor
        · exact ⟨fun _ => ⟨p, pstate, heq, hg, by rw [hattr]; rfl⟩, fun _ => rfl⟩
        · intro hne
          exact absurd rfl hne

/-- Witness for the amended C10: registering the fresh basic state `Y` under
the registered composite root `R` of `exInit` succeeds. -/
theorem register_state_fresh_witness :
    (register_state exInit (State.basic emptyContract "Y" [] none none)
      (ParentArg.nameArg (some "R"))).snd = none :=
  (register_state_fresh exInit (State.basic emptyContract "Y" [] none none)
      (ParentArg.nameArg (some "R")) (by decide)).1.mpr
    ⟨"R", State.compound emptyContract "R" [] none none [] none, by decide, by decide, by decide⟩

/-- Counterexample to C3 as stated: on the freshly constructed chart `exInit`,
registering a transition whose source `X` is not a registered state does not
succeed — `self._states[transition.from_state]` raises `KeyError` — although
the transition has already been appended to the chart's global list. -/
theorem register_transition_unregistered_counterexample :
    (register_transition exInit ⟨emptyContract, "X", none, none, none, none⟩).snd =
      some PyErr.keyError ∧
    (register_transition exInit ⟨emptyContract, "X", none, none, none, none⟩).fst.transitions =
      [⟨emptyContract, "X", none, none, none, none⟩] :=
  ⟨by decide, by decide⟩

/-- C3 (amended): `register_transition` performs no explicit existence check on
`t.from_state` (that is left to `validate`) and always appends the transition
to the chart's global list; it succeeds exactly when `t.from_state` names a
registered state carrying a `transitions` attribute, in which case it also
appends the transition to that state's own list — otherwise it raises
`KeyError`/`AttributeError` after the global append. -/
theorem register_transition_spec (c : StateChart) (t : Transition) :
    (register_transition c t).fst.transitions = c.transitions ++ [t] ∧
    ((register_transition c t).snd = none ↔
      ∃ st, dictGet? c.states t.from_state = some st ∧ (st.transitionsAttr).isSome = true) ∧
    (∀ st ts, dictGet? c.states t.from_state = some st → st.transitionsAttr = some ts →
      dictGet? (register_transition c t).fst.states t.from_state =
        some (st.appendTransition t)) := by
  unfold register_transition
  split
  · rename_i heq
    refine ⟨rfl, ?_, ?_⟩
    · constructor
      · intro hh; simp at hh
      · rintro ⟨st, hst, -⟩
        rw [heq] at hst
        exact Option.noConfusion hst
    · intro st ts hst
      rw [heq] at hst
      exact absurd hst (by simp)
  · rename_i st heq
    split
    · rename_i hattr
      refine ⟨rfl, ?_, ?_⟩
      · constructor
        · intro hh; simp at hh
        · rintro ⟨st', hst', hsome⟩
          rw [heq] at hst'
          obtain rfl := Option.some.inj hst'
          rw [hattr] at hsome
          exact Bool.noConfusion hsome
      · intro st' ts hst' hattr'
        rw [heq] at hst'
        obtain rfl := Option.some.inj hst'
        rw [hattr] at hattr'
        exact Option.noConfusion hattr'
    · rename_i ts hattr
      refine ⟨rfl, ?_, ?_⟩
      · exact ⟨fun _ => ⟨st, heq, by rw [hattr]; rfl⟩, fun _ => rfl⟩
      · intro st' ts' hst' hattr'
        rw [heq] at hst'
        obtain rfl := Option.some.inj hst'
        exact dictGet?_dictSet_self _ _ _

/-- Example transition from `A` to `B` on event `go`. -/
def tGo : Transition := ⟨emptyContract, "A", some "B", some "go", none, none⟩

/-- Witness for the amended C3: registering `tGo` on `exGood` appends it to
the global list, succeeds, and appends it to the source state's own list. -/
theorem register_transition_spec_witness :
    (register_transition exGood tGo).fst.transitions = exGood.transitions ++ [tGo] ∧
    (register_transition exGood tGo).snd = none ∧
    dictGet? (register_transition exGood tGo).fst.states "A" = some (stA.appendTransition tGo) :=
  ⟨(register_transition_spec exGood tGo).1,
   (register_transition_spec exGood tGo).2.1.mpr ⟨stA, by decide, by decide⟩,
   (register_transition_spec exGood tGo).2.2 stA [] (by decide) (by decide)⟩

theorem checkPass1_c5 (states : List (String × State)) :
    ∀ ts : List Transition, (∀ t ∈ ts, c1Holds states t = true) →
      (∃ t ∈ ts, t.to_state = none ∧ t.event = none ∧ t.guard = none) →
      ∃ t', checkTransitionsPass1 states ts = .error (.invalidStatechart (.ruleC5 t')) := by
  intro ts
  induction ts with
  | nil =>
    rintro _ ⟨t, ht, -⟩
    simp at ht
  | cons t rest ih =>
    intro hall hex
    have hc1 := hall t (List.mem_cons_self t rest)
    by_cases hviol : c5Violation t = true
    · exact ⟨t, by simp [checkTransitionsPass1, hc1, hviol]⟩
    · have hex' : ∃ t' ∈ rest, t'.to_state = none ∧ t'.event = none ∧ t'.guard = none := by
        rcases hex with ⟨t0, ht0, hp⟩
        rcases List.mem_cons.mp ht0 with rfl | hmem
        · exact absurd (by simp [c5Violation, hp.1, hp.2.1, hp.2.2, pyTruthyOptStr]) hviol
        · exact ⟨t0, hmem, hp⟩
      obtain ⟨t'', hres⟩ := ih (fun x hx => hall x (List.mem_cons_of_mem _ hx)) hex'
      exact ⟨t'', by simp [checkTransitionsPass1, hc1, hviol, hres]⟩

/-- C8: for every chart all of whose transitions satisfy the rule C1
condition, if some transition is simultaneously internal (`to_state` absent),
eventless and guardless, then `validate` raises an error tagged C5 (carrying
the first offending transition of the first pass). -/
theorem validate_c5 (c : StateChart)
    (h1 : ∀ t ∈ c.transitions, c1Holds c.states t = true)
    (h2 : ∃ t ∈ c.transitions, t.to_state = none ∧ t.event = none ∧ t.guard = none) :
    ∃ t', validate c = .error (.invalidStatechart (.ruleC5 t')) := by
  obtain ⟨t', hres⟩ := checkPass1_c5 c.states c.transitions h1 h2
  refine ⟨t', ?_⟩
  unfold validate
  rw [hres]

/-- Example transition that is internal, eventless and guardless. -/
def tBad : Transition := ⟨emptyContract, "A", none, none, none, none⟩

/-- A chart whose transitions pass rule C1 but include `tBad`. -/
def exC5 : StateChart :=
  ⟨"c5", none, none,
   [("R", State.compound emptyContract "R" [] none none ["A"] (some "A")),
    ("A", State.basic emptyContract "A" [] none none)],
   [("R", none), ("A", some "R")],
   [tBad], "R"⟩

/-- Witness for C8: on `exC5` the theorem yields a C5-tagged failure. -/
theorem validate_c5_witness :
    ∃ t', validate exC5 = .error (.invalidStatechart (.ruleC5 t')) :=
  validate_c5 exC5 (by decide) ⟨tBad, by decide, rfl, rfl, rfl⟩

theorem checkPass1_all (states : List (String × State)) :
    ∀ ts : List Transition, checkTransitionsPass1 states ts = .ok () →
      ∀ t ∈ ts, c1Holds states t = true := by
  intro ts
  induction ts with
  | nil => intro _ t ht; simp at ht
  | cons t rest ih =>
    intro h t' ht'
    unfold checkTransitionsPass1 at h
    split at h
    · simp at h
    · rename_i hcond
      split at h
      · simp at h
      · rcases List.mem_cons.mp ht' with rfl | hmem
        · simpa using hcond
        · exact ih h t' hmem

theorem checkC6Step_eq (states : List (String × State)) (t : Transition) (fallback : State)
    (hfb : dictGet? states t.from_state = some fallback) :
    checkC6Step states t =
      if ((match t.to_state with
           | none => fallback
           | some ts' => (dictGet? states ts').getD fallback) : State).isCompoundNoInitial
      then .error (.invalidStatechart (.ruleC6
        ((match t.to_state with
          | none => fallback
          | some ts' => (dictGet? states ts').getD fallback) : State).name))
      else .ok () := by
  unfold checkC6Step
  rw [hfb]

theorem checkC6_iff (states : List (String × State)) :
    ∀ ts : List Transition, (∀ t ∈ ts, (dictGet? states t.from_state).isSome = true) →
      ((∃ s, checkC6Pass3 states ts = .error (.invalidStatechart (.ruleC6 s))) ↔
        ∃ t ∈ ts, ∃ st, effectiveTarget states t = some st ∧ st.isCompoundNoInitial = true) := by
  intro ts
  induction ts with
  | nil =>
    intro _
    constructor
    · rintro ⟨s, hs⟩; simp [checkC6Pass3] at hs
    · rintro ⟨t, ht, -⟩; simp at ht
  | cons t rest ih =>
    intro hall
    obtain ⟨fallback, hfb⟩ :=
      Option.isSome_iff_exists.mp (hall t (List.mem_cons_self t rest))
    have hstep := checkC6Step_eq states t fallback hfb
    set target := (match t.to_state with
                   | none => fallback
                   | some ts' => (dictGet? states ts').getD fallback) with htargetdef
    have heff : effectiveTarget states t = some target := by
      unfold effectiveTarget
      rw [hfb]
    by_cases hbad : target.isCompoundNoInitial = true
    · rw [if_pos hbad] at hstep
      constructor
      · intro _
        exact ⟨t, List.mem_cons_self t rest, target, heff, hbad⟩
      · intro _
        refine ⟨target.name, ?_⟩
        unfold checkC6Pass3
        rw [hstep]
    · rw [if_neg hbad] at hstep
      have hrec : checkC6Pass3 states (t :: rest) = checkC6Pass3 states rest := by
        show (match checkC6Step states t with
              | Except.error e => Except.error e
              | Except.ok _ => checkC6Pass3 states rest) = checkC6Pass3 states rest
        simp only [hstep]
      rw [hrec, ih (fun x hx => hall x (List.mem_cons_of_mem _ hx))]
      constructor
      · rintro ⟨t0, ht0, hp⟩
        exact ⟨t0, List.mem_cons_of_mem _ ht0, hp⟩
      · rintro ⟨t0, ht0, hp⟩
        rcases List.mem_cons.mp ht0 with rfl | hmem
        · exfalso
          obtain ⟨st, hst, hbd⟩ := hp
          rw [heff] at hst
          obtain rfl := Option.some.inj hst
          exact hbad hbd
        · exact ⟨t0, hmem, hp⟩

theorem validate_eq_c6 (c : StateChart)
    (hp1 : checkTransitionsPass1 c.states c.transitions = .ok ())
    (hp2 : checkStatesPass2 c.states c.parent c.states = .ok ()) :
    validate c = match checkC6Pass3 c.states c.transitions with
                 | .error e => .error e
                 | .ok _ => .ok true := by
  unfold validate
  rw [hp1, hp2]

/-- C5 (amended): for every chart on which the first two validation passes
succeed, `validate` raises an error tagged C6 if and only if some transition's
effective target — the registered state named by its `to_state` when that
lookup succeeds, otherwise the state named by its own `from_state` (exactly
the `dict.get` fallback the source performs) — is a `CompoundState` whose
`initial` is falsy (absent or empty).  In particular an internal transition
whose source is a `CompoundState` lacking `initial` triggers C6. -/
theorem validate_c6_iff (c : StateChart)
    (hp1 : checkTransitionsPass1 c.states c.transitions = .ok ())
    (hp2 : checkStatesPass2 c.states c.parent c.states = .ok ()) :
    (∃ s, validate c = .error (.invalidStatechart (.ruleC6 s))) ↔
    ∃ t ∈ c.transitions, ∃ st, effectiveTarget c.states t = some st ∧
      st.isCompoundNoInitial = true := by
  have hall : ∀ t ∈ c.transitions, (dictGet? c.states t.from_state).isSome = true := by
    intro t ht
    have hc1 := checkPass1_all c.states c.transitions hp1 t ht
    unfold c1Holds at hc1
    simp only [Bool.and_eq_true] at hc1
    exact dictGet?_isSome_of_mem _ _ ((contains_true_iff _ _).mp hc1.1)
  rw [← checkC6_iff c.states c.transitions hall, validate_eq_c6 c hp1 hp2]
  rcases hc : checkC6Pass3 c.states c.transitions with e | u
  · constructor
    · rintro ⟨s, hs⟩
      refine ⟨s, ?_⟩
      simpa using hs
    · rintro ⟨s, hs⟩
      refine ⟨s, ?_⟩
      simpa using hs
  · constructor
    · rintro ⟨s, hs⟩; simp at hs
    · rintro ⟨s, hs⟩; simp at hs

/-- Example transition to the (unregistered) empty-string name on event `go`. -/
def t5 : Transition := ⟨emptyContract, "A", some "", some "go", none, none⟩

/-- A chart that passes the first two validation passes and whose only
transition names the unregistered empty string as target. -/
def ex5 : StateChart :=
  ⟨"c6strict", none, none,
   [("R", State.compound emptyContract "R" [] none none ["A"] (some "A")),
    ("A", State.compound emptyContract "A" [] none none ["B"] none),
    ("B", State.basic emptyContract "B" [] none none)],
   [("R", none), ("A", some "R"), ("B", some "A")],
   [t5], "R"⟩

/-- Counterexample to C5 as stated: `ex5` passes the first two validation
passes, and no transition satisfies the claim's reading of rule C6 (`t5`'s
`to_state` is present, and the name `""` it carries is not a registered
`CompoundState`), yet `validate` raises an error tagged C6: the `dict.get`
lookup of the unregistered present name `""` falls back to the source state
`A`, a `CompoundState` without `initial`. -/
theorem validate_c6_strict_counterexample :
    checkTransitionsPass1 ex5.states ex5.transitions = .ok () ∧
    checkStatesPass2 ex5.states ex5.parent ex5.states = .ok () ∧
    validate ex5 = .error (.invalidStatechart (.ruleC6 "A")) ∧
    (∀ t ∈ ex5.transitions, claimC6Bad ex5.states t = false) :=
  ⟨by decide, by decide, by decide, by decide⟩

/-- Example internal transition with source `A` on event `e`. -/
def t6 : Transition := ⟨emptyContract, "A", none, some "e", none, none⟩

/-- A chart whose only transition is internal with a no-initial compound source. -/
def exC6W : StateChart :=
  ⟨"c6internal", none, none,
   [("R", State.compound emptyContract "R" [] none none ["A"] (some "A")),
    ("A", State.compound emptyContract "A" [] none none ["B"] none),
    ("B", State.basic emptyContract "B" [] none none)],
   [("R", none), ("A", some "R"), ("B", some "A")],
   [t6], "R"⟩

/-- Witness for the amended C5: on `exC6W`, whose only transition is internal
with source `A`, a `CompoundState` without `initial`, the first two passes
succeed and `validate` raises an error tagged C6. -/
theorem validate_c6_iff_witness :
    ∃ s, validate exC6W = .error (.invalidStatechart (.ruleC6 s)) :=
  (validate_c6_iff exC6W (by decide) (by decide)).mpr
    ⟨t6, by decide, State.compound emptyContract "A" [] none none ["B"] none,
     by decide, by decide⟩

/-- C1: the story projection is not total — `story_from_trace` raises
`TypeError` on any trace that reaches a payload-carrying event construction,
because every such construction (`Event('entered', {'state': ...})` etc.)
passes a dict as a second positional argument to
`Event.__init__(self, name, **additional_parameters)`.  Here it is evaluated
on a well-formed one-step trace whose only content is entering state `B`. -/
theorem story_from_trace_raises :
    story_from_trace [⟨2, [⟨none, none, ["B"], []⟩]⟩] = .error PyErr.typeError := by decide

/-- C4: on the spec's example trace — one macro step at time 1.5 whose single
micro step exits `A1`, fires `A1 → A2` on `go` and enters `A2` — the code does
not yield the seven-element story the claim describes: it raises `TypeError`
at `Event('consumed', {'event': ...})`, the first payload-carrying event
construction of the trace. -/
theorem story_from_trace_example_raises :
    story_from_trace
      [⟨(3 : Rat)/2,
        [⟨some ⟨"go", []⟩, some ⟨emptyContract, "A1", some "A2", some "go", none, none⟩,
          ["A2"], ["A1"]⟩]⟩] = .error PyErr.typeError := by decide
